import Mathlib

/-!
Shallow embedding of `src/src/MariaResult.cpp` (RMariaDB's statement/result
controller).

The MySQL client library is out of scope of the repository and is modelled as
a deterministic oracle: every call to `mysql_stmt_execute` consumes the next
`ExecBehavior` from a queue carried in the state, and the result set stored by
the current execution is a list of `FetchOutcome`s that `mysql_stmt_fetch`
consumes one by one.  Ghost event counters (`execCount`, `specFreed`,
`stmtClosed`, `autocommitCalls`) record resource events for the theorems; they
have no effect on control flow, mirroring that the corresponding C calls
return nothing the controller inspects.
-/

namespace RMariaDB

/-- Modelled from the spec: the Type Mapper's closed set of logical column
types (the mapper itself lives outside `src/`): "integer, double, string,
blob, boolean, date/time, null".  Only the identity of a type matters for the
controller. -/
inductive MariaFieldType where
  | intT
  | doubleT
  | stringT
  | blobT
  | boolT
  | dateT
  | timeT
  | datetimeT
  | naT
  deriving DecidableEq, Repr

/-- A fetched row as materialised by the output binder (cell contents are
irrelevant to the controller, so cells are plain integers). -/
abbrev Row := List Int

/-- Outcome of one `mysql_stmt_fetch` call while server rows remain: a full
row (`0`), a truncated row (`MYSQL_DATA_TRUNCATED`), or a server-side error
(`1`, with the statement's error message and number).  When the list of
outcomes is exhausted the oracle answers `MYSQL_NO_DATA`. -/
inductive FetchOutcome where
  | rowOk (r : Row)
  | rowTruncated (r : Row)
  | fetchFail (msg : String) (code : Nat)
  deriving DecidableEq, Repr

/-- Behaviour of one `mysql_stmt_execute` call: whether it succeeds, the
error message/number on failure, `mysql_stmt_affected_rows` for statements
without a result set, and the stored result set for statements with one. -/
structure ExecBehavior where
  ok : Bool
  errMsg : String
  errCode : Nat
  affected : Nat
  resultSet : List FetchOutcome
  deriving DecidableEq, Repr

/-- `Rcpp::stop` errors raised by the controller: protocol errors carry the
server message and numeric code (`throw_error`), precondition errors carry
the `stop` message. -/
inductive MariaError where
  | protocolError (msg : String) (code : Nat)
  | preconditionError (msg : String)
  deriving DecidableEq, Repr

/-- Modelled from the spec: the result table produced by the columnar
materialiser (`df_create` / `df_resize` live outside `src/`): named, typed
columns holding `length rows` cells each; represented row-major. -/
structure DataFrame where
  names : List String
  types : List MariaFieldType
  rows : List Row
  deriving DecidableEq, Repr

/-- Modelled from the spec: the default (missing-marker) row used when a
table is allocated or grown before real rows are written. -/
def defaultRow (types : List MariaFieldType) : Row :=
  types.map (fun _ => 0)

/-- Modelled from the spec: `df_create(types, names, n)` allocates a table
with the given column names and types and `n` default rows. -/
def df_create (types : List MariaFieldType) (names : List String) (n : Nat) : DataFrame :=
  { names := names, types := types, rows := List.replicate n (defaultRow types) }

/-- Modelled from the spec: `df_resize(df, m)` resizes the table to exactly
`m` rows, truncating or padding with default rows. -/
def df_resize (df : DataFrame) (m : Nat) : DataFrame :=
  { df with rows :=
      if m ≤ df.rows.length then df.rows.take m
      else df.rows ++ List.replicate (m - df.rows.length) (defaultRow df.types) }

/-- The state of one `MariaResult` object together with its view of the
connection and of the protocol oracle.  Field names follow the C++ members.
`pStatement_` and `pSpec_` record whether the respective handle is non-NULL;
`isCurrent` is `pConn_->is_current_result(this)`; `paramRowsLeft` is the
input binder's count of parameter rows not yet bound (the cursor of
`MariaBinding`, which lives outside `src/`, modelled from the spec);
`pending` is the stored result set of the current execution; `buffer` is the
output binder's just-fetched row; `execQueue` is the protocol oracle. -/
structure MariaResultState where
  bound_ : Bool
  complete_ : Bool
  rowsAffected_ : Nat
  rowsFetched_ : Nat
  pStatement_ : Bool
  pSpec_ : Bool
  isCurrent : Bool
  nParams_ : Nat
  names_ : List String
  types_ : List MariaFieldType
  nCols_ : Nat
  paramRowsLeft : Nat
  pending : List FetchOutcome
  buffer : Row
  execQueue : List ExecBehavior
  execCount : Nat
  specFreed : Nat
  stmtClosed : Nat
  autocommitCalls : Nat
  deriving DecidableEq, Repr

/-- `MariaResult::MariaResult`: a fresh statement handle, the object
registered as the connection's current result, all flags down and all
counters zero. -/
def initState : MariaResultState where
  bound_ := false
  complete_ := false
  rowsAffected_ := 0
  rowsFetched_ := 0
  pStatement_ := true
  pSpec_ := false
  isCurrent := true
  nParams_ := 0
  names_ := []
  types_ := []
  nCols_ := 0
  paramRowsLeft := 0
  pending := []
  buffer := []
  execQueue := []
  execCount := 0
  specFreed := 0
  stmtClosed := 0
  autocommitCalls := 0

/-- `MariaResult::has_result`: `pSpec_ != NULL`. -/
def has_result (st : MariaResultState) : Bool :=
  st.pSpec_

/-- `MariaResult::active`: `pConn_->is_current_result(this)`. -/
def active (st : MariaResultState) : Bool :=
  st.isCurrent

/-- R's `NA_INTEGER` sentinel (`INT_MIN`). -/
def NA_INTEGER : Int := -2147483648

/-- `static_cast<int>` of an unsigned counter: reduce modulo `2^32` and read
the result as a two's-complement 32-bit value. -/
def toInt32 (n : Nat) : Int :=
  if n % 4294967296 < 2147483648 then ((n % 4294967296 : Nat) : Int)
  else ((n % 4294967296 : Nat) : Int) - 4294967296

/-- `MariaResult::rows_affected`. -/
def rows_affected (st : MariaResultState) : Int :=
  if st.bound_ = false then NA_INTEGER
  else toInt32 st.rowsAffected_

/-- `MariaResult::rows_fetched`. -/
def rows_fetched (st : MariaResultState) : Int :=
  if st.bound_ = false then 0
  else toInt32 st.rowsFetched_

/-- `MariaResult::complete`. -/
def complete (st : MariaResultState) : Bool :=
  if st.bound_ = false then false
  else !has_result st || st.complete_

/-- `MariaResult::close`: free the result metadata if present, close the
statement handle if present, then reassert the connection's autocommit
mode.  The ghost counters record each release/call. -/
def close (st : MariaResultState) : MariaResultState :=
  let st1 :=
    if has_result st then
      { st with pSpec_ := false, specFreed := st.specFreed + 1 }
    else st
  let st2 :=
    if st1.pStatement_ then
      { st1 with pStatement_ := false, stmtClosed := st1.stmtClosed + 1 }
    else st1
  { st2 with autocommitCalls := st2.autocommitCalls + 1 }

/-- One `mysql_stmt_execute` answer from the oracle: pop the next behaviour;
an exhausted oracle answers a trivial success (never reached by theorems,
whose hypotheses supply enough behaviours). -/
def popExec (st : MariaResultState) : ExecBehavior × MariaResultState :=
  match st.execQueue with
  | [] => ({ ok := true, errMsg := "", errCode := 0, affected := 0, resultSet := [] }, st)
  | b :: rest => (b, { st with execQueue := rest })

/-- `MariaResult::execute`: clear the completion flag, run
`mysql_stmt_execute` (throwing `throw_error` on failure), then either store
the result set (`mysql_stmt_store_result`) or accumulate
`mysql_stmt_affected_rows`. -/
def execute (st : MariaResultState) : Except MariaError MariaResultState :=
  let st0 := { st with complete_ := false }
  let p := popExec st0
  let b := p.1
  let st1 := { p.2 with execCount := p.2.execCount + 1 }
  if b.ok = false then Except.error (MariaError.protocolError b.errMsg b.errCode)
  else if has_result st1 then Except.ok { st1 with pending := b.resultSet }
  else Except.ok { st1 with rowsAffected_ := st1.rowsAffected_ + b.affected }

/-- Modelled from the spec: `MariaBinding::bind_next_row`'s success case
(outside `src/`) — convert and apply the current parameter row and advance
the cursor; the caller checks exhaustion first. -/
def bindNext (st : MariaResultState) : MariaResultState :=
  { st with paramRowsLeft := st.paramRowsLeft - 1 }

/-- `MariaResult::fetch_row`: one protocol-level row fetch.  Returns true on
a full (`0`) or truncated (`MYSQL_DATA_TRUNCATED`) row, throws on a fetch
error (`1`), and marks the result complete on `MYSQL_NO_DATA`. -/
def fetch_row (st : MariaResultState) : Except MariaError (Bool × MariaResultState) :=
  if st.complete_ then Except.ok (false, st)
  else
    match st.pending with
    | [] => Except.ok (false, { st with complete_ := true })
    | FetchOutcome.rowOk r :: rest =>
        Except.ok (true, { st with pending := rest, buffer := r })
    | FetchOutcome.rowTruncated r :: rest =>
        Except.ok (true, { st with pending := rest, buffer := r })
    | FetchOutcome.fetchFail m c :: _ =>
        Except.error (MariaError.protocolError m c)

/-- The loop of `MariaResult::step`: `while (!fetch_row()) { if
(!bind_next_row()) return false; execute(); }` followed by
`rowsFetched_++`.  The fuel argument only bounds the recursion; `step`
passes the input binder's remaining-row count, which strictly decreases on
every iteration, so the fuel cutoff is never taken. -/
def stepLoop : Nat → MariaResultState → Except MariaError (Bool × MariaResultState)
  | 0, st =>
    (match fetch_row st with
     | Except.error e => Except.error e
     | Except.ok (true, st1) =>
         Except.ok (true, { st1 with rowsFetched_ := st1.rowsFetched_ + 1 })
     | Except.ok (false, st1) => Except.ok (false, st1))
  | fuel + 1, st =>
    (match fetch_row st with
     | Except.error e => Except.error e
     | Except.ok (true, st1) =>
         Except.ok (true, { st1 with rowsFetched_ := st1.rowsFetched_ + 1 })
     | Except.ok (false, st1) =>
       if st1.paramRowsLeft = 0 then Except.ok (false, st1)
       else
         match execute (bindNext st1) with
         | Except.error e => Except.error e
         | Except.ok st2 => stepLoop fuel st2)

/-- `MariaResult::step`. -/
def step (st : MariaResultState) : Except MariaError (Bool × MariaResultState) :=
  stepLoop st.paramRowsLeft st

/-- The loop of `MariaResult::bind` for statements without a result set:
`while (bindingInput_.bind_next_row()) execute();`.  Fuel as in
`stepLoop`. -/
def bindLoop : Nat → MariaResultState → Except MariaError MariaResultState
  | 0, st => Except.ok st
  | fuel + 1, st =>
    if st.paramRowsLeft = 0 then Except.ok st
    else
      match execute (bindNext st) with
      | Except.error e => Except.error e
      | Except.ok st2 => bindLoop fuel st2

/-- `MariaResult::bind` with a parameter table of `r` rows: reset
`rowsAffected_`, initialise the input binder's cursor, then either flag the
result set complete (row-producing statements: execution is deferred to the
fetch loop) or drive the bind/execute loop; finally set `bound_`. -/
def bind (r : Nat) (st : MariaResultState) : Except MariaError MariaResultState :=
  let st0 := { st with rowsAffected_ := 0, paramRowsLeft := r }
  if has_result st0 then
    Except.ok { st0 with complete_ := true, bound_ := true }
  else
    match bindLoop st0.paramRowsLeft st0 with
    | Except.error e => Except.error e
    | Except.ok st1 => Except.ok { st1 with bound_ := true }

/-- What `mysql_stmt_prepare` + `mysql_stmt_param_count` +
`mysql_stmt_result_metadata` answer for a given SQL text: success/failure of
the prepare, the parameter count, and the result metadata (column names and
logical types) or its absence. -/
structure PrepareSpec where
  prepOk : Bool
  errMsg : String
  errCode : Nat
  paramCount : Nat
  metadata : Option (List (String × MariaFieldType))
  deriving DecidableEq, Repr

/-- `MariaResult::cache_metadata` (guarded by `has_result()` in
`send_query`): cache column names and logical types from the result
metadata. -/
def cache_metadata_if (q : PrepareSpec) (st : MariaResultState) : MariaResultState :=
  if st.pSpec_ then
    match q.metadata with
    | some cols =>
        { st with names_ := cols.map Prod.fst
                  types_ := cols.map Prod.snd
                  nCols_ := cols.length }
    | none => st
  else st

/-- `MariaResult::send_query`: prepare (throwing on rejection), record the
parameter count and result metadata, execute immediately and mark bound when
there are no parameters, then cache column metadata when the statement has a
result set. -/
def send_query (q : PrepareSpec) (st : MariaResultState) : Except MariaError MariaResultState :=
  if q.prepOk = false then Except.error (MariaError.protocolError q.errMsg q.errCode)
  else
    let st1 := { st with nParams_ := q.paramCount, pSpec_ := q.metadata.isSome }
    match
      (if q.paramCount = 0 then
        match execute st1 with
        | Except.error e => Except.error e
        | Except.ok s => Except.ok { s with bound_ := true }
      else Except.ok st1) with
    | Except.error e => Except.error e
    | Except.ok st2 => Except.ok (cache_metadata_if q st2)

/-- Writing the output binder's current buffer into row `i` of the table:
the `for (j...) set_list_value(out[j], i, j)` loop of `fetch`. -/
def writeRow (out : DataFrame) (i : Nat) (r : Row) : DataFrame :=
  { out with rows := out.rows.set i r }

/-- The tail of `MariaResult::fetch`: trim the table to the `i` rows
actually used (`df_s3` only tags S3 classes and is not modelled). -/
def fetchFinalize (i n : Nat) (out : DataFrame) : DataFrame :=
  if i < n then df_resize out i else out

/-- The `for (;;)` loop of `MariaResult::fetch`: break once `i >= n` when
`n_max > 0`; otherwise step; on success double the capacity when the write
index has reached it (only reachable when `n_max` is negative), write the
buffered row, and continue.  The 1000-row `checkUserInterrupt` checkpoint
has no modelled effect.  Fuel bounds the recursion; `fetch` passes an upper
bound on the rows still obtainable, so the cutoff is never taken. -/
def fetchLoop : Nat → Nat → Nat → Int → DataFrame → MariaResultState →
    Except MariaError (DataFrame × MariaResultState)
  | 0, i, n, n_max, out, st =>
    if n ≤ i ∧ 0 < n_max then Except.ok (fetchFinalize i n out, st)
    else
      (match step st with
       | Except.error e => Except.error e
       | Except.ok (false, st1) => Except.ok (fetchFinalize i n out, st1)
       | Except.ok (true, st1) => Except.ok (fetchFinalize i n out, st1))
  | fuel + 1, i, n, n_max, out, st =>
    if n ≤ i ∧ 0 < n_max then Except.ok (fetchFinalize i n out, st)
    else
      (match step st with
       | Except.error e => Except.error e
       | Except.ok (false, st1) => Except.ok (fetchFinalize i n out, st1)
       | Except.ok (true, st1) =>
         let n2 := if n ≤ i then 2 * n else n
         let out2 := if n ≤ i then df_resize out (2 * n) else out
         fetchLoop fuel (i + 1) n2 n_max (writeRow out2 i st1.buffer) st1)

/-- Upper bound on the rows a fetch loop can still produce: the stored
result set plus every result set the oracle still holds. -/
def fetchFuel (st : MariaResultState) : Nat :=
  st.pending.length + (st.execQueue.map (fun b => b.resultSet.length)).sum

/-- `MariaResult::fetch`: precondition checks, the empty-table short-cut for
statements without a result set (the advisory `warning` has no modelled
effect), allocation at `n_max` rows (or the default batch of 100 when
`n_max` is negative), the zero-row short-cut, then the fetch loop. -/
def fetch (n_max : Int) (st : MariaResultState) : Except MariaError (DataFrame × MariaResultState) :=
  if st.bound_ = false then
    Except.error (MariaError.preconditionError "Query needs to be bound before fetching")
  else if active st = false then
    Except.error (MariaError.preconditionError "Inactive result set")
  else if has_result st = false then
    Except.ok (df_create st.types_ st.names_ 0, st)
  else
    let n : Nat := if n_max < 0 then 100 else n_max.toNat
    let out := df_create st.types_ st.names_ n
    if n = 0 then Except.ok (out, st)
    else fetchLoop (fetchFuel st) 0 n n_max out st

/-! ## Predicates used to state the fetch-loop theorems -/

/-- A stored result set none of whose fetches fails server-side. -/
def rowsOnly (l : List FetchOutcome) : Bool :=
  l.all (fun o =>
    match o with
    | FetchOutcome.fetchFail _ _ => false
    | _ => true)

/-- An execution that succeeds and whose result set has no failing fetch. -/
def behaviorClean (b : ExecBehavior) : Bool :=
  b.ok && rowsOnly b.resultSet

/-- Every behaviour in the list is clean. -/
def allClean (l : List ExecBehavior) : Bool :=
  l.all behaviorClean

/-- Total number of rows in the result sets of a list of behaviours. -/
def listRows (l : List ExecBehavior) : Nat :=
  (l.map (fun b => b.resultSet.length)).sum

/-- Rows still obtainable by the fetch loop: the rows of the current
execution (none once exhaustion has been observed) plus the rows of the
executions the remaining parameter rows will drive. -/
def remaining (st : MariaResultState) : Nat :=
  (if st.complete_ then 0 else st.pending.length) +
    listRows (st.execQueue.take st.paramRowsLeft)

/-- A row-producing statement state whose outstanding protocol interactions
all succeed. -/
def clean (st : MariaResultState) : Prop :=
  st.pSpec_ = true ∧
  (st.complete_ = false → rowsOnly st.pending = true) ∧
  allClean (st.execQueue.take st.paramRowsLeft) = true ∧
  st.paramRowsLeft ≤ st.execQueue.length

/-! ## Example states -/

/-- A prepared row-producing statement with one parameter, not yet bound. -/
def exSelectParam : MariaResultState :=
  { initState with
    pSpec_ := true
    names_ := ["x"]
    types_ := [MariaFieldType.intT]
    nCols_ := 1
    nParams_ := 1 }

/-! ## Claim theorems (first group) -/

/-- Claim C1, counterexample: the claim says `complete()` returns true when
the statement is not bound; on the freshly constructed (unbound, no result
set) state the code returns false, even though the claim's first two
disjuncts both hold there. -/
theorem complete_unbound_cex :
    initState.bound_ = false ∧ has_result initState = false ∧
      complete initState = false :=
  ⟨rfl, rfl, rfl⟩

/-- Claim C1 (amended): `complete()` returns false if the statement is not
bound; if bound, it returns true iff the statement has no result set or the
fetch loop has observed exhaustion. -/
theorem complete_spec (st : MariaResultState) :
    complete st = (st.bound_ && (!has_result st || st.complete_)) := by
  unfold complete
  cases hb : st.bound_ <;> simp [hb]

/-- Claim C2, counterexample: on a never-bound statement `rows_affected()`
does return the NA sentinel, but `rows_fetched()` returns 0, not the
sentinel the claim promises for both accessors. -/
theorem rows_fetched_unbound_cex :
    initState.bound_ = false ∧ rows_affected initState = NA_INTEGER ∧
      rows_fetched initState = 0 ∧ rows_fetched initState ≠ NA_INTEGER :=
  ⟨rfl, rfl, rfl, by decide⟩

/-- Claim C2 (amended): on a never-bound statement `rows_affected()` returns
the NA sentinel while `rows_fetched()` returns 0; once bound, each returns
its accumulated counter (cast to a 32-bit integer). -/
theorem rows_counters_spec (st : MariaResultState) :
    rows_affected st = (if st.bound_ then toInt32 st.rowsAffected_ else NA_INTEGER) ∧
      rows_fetched st = (if st.bound_ then toInt32 st.rowsFetched_ else 0) := by
  unfold rows_affected rows_fetched
  cases hb : st.bound_ <;> simp [hb]

/-- Claim C3, counterexample: binding two parameter rows to a row-producing
statement leaves the completion flag TRUE, not false as the claim states. -/
theorem bind_complete_flag_cex :
    has_result exSelectParam = true ∧
      (RMariaDB.bind 2 exSelectParam).toOption.map (fun s => s.complete_) =
        some true :=
  ⟨rfl, rfl⟩

/-- Claim C3 (amended): for a row-producing statement, `bind` performs no
execution (the oracle queue and the execution count are untouched —
execution is deferred to the first fetch), resets the rows-affected counter,
initialises the parameter cursor, sets the completion flag to TRUE (which is
what makes the first `step` of the fetch loop bind the first parameter row
and execute), and sets the bound flag. -/
theorem bind_has_result_spec (st : MariaResultState) (r : Nat)
    (h : has_result st = true) :
    RMariaDB.bind r st =
      Except.ok { st with rowsAffected_ := 0, paramRowsLeft := r,
                          complete_ := true, bound_ := true } := by
  unfold bind
  unfold has_result at h ⊢
  simp [h]

/-- Claim C3 witness: the amended theorem applied to a concrete prepared
SELECT-like statement with three parameter rows. -/
theorem bind_has_result_spec_witness :
    has_result exSelectParam = true ∧
      RMariaDB.bind 3 exSelectParam =
        Except.ok { exSelectParam with rowsAffected_ := 0, paramRowsLeft := 3,
                                       complete_ := true, bound_ := true } :=
  ⟨rfl, bind_has_result_spec exSelectParam 3 rfl⟩

/-- Claim C7: every call to `fetch_row` has exactly one of three outcomes —
a full or truncated row is available (both return true), the head of the
stored result set is a server-side fetch error (a ProtocolError carrying the
server message and numeric code is raised), or no more rows are available
(the result is marked complete and false is returned). -/
theorem fetch_row_trichotomy (st : MariaResultState) :
    (∃ r rest st2, st.complete_ = false ∧
       (st.pending = FetchOutcome.rowOk r :: rest ∨
        st.pending = FetchOutcome.rowTruncated r :: rest) ∧
       fetch_row st = Except.ok (true, st2)) ∨
    (∃ m c, st.complete_ = false ∧
       st.pending.head? = some (FetchOutcome.fetchFail m c) ∧
       fetch_row st = Except.error (MariaError.protocolError m c)) ∨
    (∃ st2, fetch_row st = Except.ok (false, st2) ∧ st2.complete_ = true) := by
  unfold fetch_row
  cases hc : st.complete_ with
  | true =>
    right; right
    exact ⟨st, by simp [hc], hc⟩
  | false =>
    cases hp : st.pending with
    | nil =>
      right; right
      exact ⟨{ st with complete_ := true }, by simp [hc, hp], rfl⟩
    | cons o rest =>
      cases o with
      | rowOk r =>
        left
        refine ⟨r, rest, { st with pending := rest, buffer := r }, rfl,
          Or.inl rfl, ?_⟩
        simp [hc, hp]
      | rowTruncated r =>
        left
        refine ⟨r, rest, { st with pending := rest, buffer := r }, rfl,
          Or.inr rfl, ?_⟩
        simp [hc, hp]
      | fetchFail m c =>
        right; left
        exact ⟨m, c, rfl, by simp [hp], by simp [hc, hp]⟩

/-- Claim C9: `close()` is idempotent — a second close is a no-op apart from
reasserting the connection's autocommit mode, and across both calls the
result metadata and the statement handle are each released at most once. -/
theorem close_idempotent (st : MariaResultState) :
    close (close st) =
      { close st with autocommitCalls := (close st).autocommitCalls + 1 } ∧
    (close (close st)).specFreed ≤ st.specFreed + 1 ∧
    (close (close st)).stmtClosed ≤ st.stmtClosed + 1 := by
  obtain ⟨b, c, ra, rf, pst, psp, cur, np, nm, ty, nc, pr, pe, bu, eq, ec, sf, sc, ac⟩ := st
  cases psp <;> cases pst <;>
    refine ⟨?_, ?_, ?_⟩ <;> simp [close, has_result]

/-! ## Claim theorems (second group) -/

/-- Total affected-row count reported by a list of execution behaviours. -/
def sumAffected (l : List ExecBehavior) : Nat :=
  (l.map (fun b => b.affected)).sum

/-- The bind/execute loop of `bind` on a statement without a result set:
with enough fuel and successful executions it performs exactly
`paramRowsLeft` executions, accumulating the affected-row counts. -/
theorem bindLoop_spec : ∀ (fuel : Nat) (st : MariaResultState),
    st.pSpec_ = false → st.paramRowsLeft ≤ fuel →
    (st.execQueue.take st.paramRowsLeft).all (fun b => b.ok) = true →
    st.paramRowsLeft ≤ st.execQueue.length →
    ∃ st2, bindLoop fuel st = Except.ok st2 ∧
      st2.rowsAffected_ =
        st.rowsAffected_ + sumAffected (st.execQueue.take st.paramRowsLeft) ∧
      st2.execCount = st.execCount + st.paramRowsLeft ∧
      st2.execQueue = st.execQueue.drop st.paramRowsLeft ∧
      st2.bound_ = st.bound_ := by
  intro fuel
  induction fuel with
  | zero =>
    intro st hspec hfuel hok hlen
    have hpr : st.paramRowsLeft = 0 := Nat.le_zero.mp hfuel
    refine ⟨st, rfl, ?_, ?_, ?_, rfl⟩ <;> simp [hpr, sumAffected]
  | succ fuel ih =>
    intro st hspec hfuel hok hlen
    cases hpr : st.paramRowsLeft with
    | zero =>
      refine ⟨st, ?_, ?_, ?_, ?_, rfl⟩ <;> simp [bindLoop, hpr, sumAffected]
    | succ k =>
      cases hq : st.execQueue with
      | nil => rw [hq] at hlen; simp [hpr] at hlen
      | cons b qrest =>
        have hball : b.ok = true ∧ (qrest.take k).all (fun x => x.ok) = true := by
          rw [hq, hpr] at hok
          simpa [List.all_cons] using hok
        have hstep : execute (bindNext st) = Except.ok
            { st with complete_ := false
                      paramRowsLeft := k
                      execQueue := qrest
                      execCount := st.execCount + 1
                      rowsAffected_ := st.rowsAffected_ + b.affected } := by
          simp [execute, bindNext, popExec, has_result, hq, hball.1, hspec, hpr]
        have hlen2 : k ≤ qrest.length := by
          rw [hq, hpr] at hlen
          simpa using hlen
        obtain ⟨st2, hrun, hra, hec, hqq, hb⟩ :=
          ih { st with complete_ := false
                       paramRowsLeft := k
                       execQueue := qrest
                       execCount := st.execCount + 1
                       rowsAffected_ := st.rowsAffected_ + b.affected }
            (by simp [hspec]) (by show k ≤ fuel; omega)
            (by simpa using hball.2) (by simpa using hlen2)
        refine ⟨st2, ?_, ?_, ?_, ?_, by simpa using hb⟩
        · rw [bindLoop, hpr]
          simp only [Nat.succ_ne_zero, if_false]
          rw [hstep]
          exact hrun
        · rw [hra]
          simp only [hq, hpr, List.take_succ_cons, sumAffected, List.map_cons,
            List.sum_cons]
          omega
        · rw [hec]
          simp
          omega
        · rw [hqq]
          simp [hq, hpr]

/-- Claim C5: binding a parameter table of `r` rows to a statement without a
result set resets the rows-affected counter, then drives exactly `r`
executions (one per parameter row, consuming `r` oracle behaviours), after
which the accumulated counter — and the `rows_affected()` accessor — equal
the sum of the per-execution affected-row counts, and the statement is
bound. -/
theorem bind_no_result_spec (st : MariaResultState) (r : Nat)
    (hr : has_result st = false)
    (hok : (st.execQueue.take r).all (fun b => b.ok) = true)
    (hlen : r ≤ st.execQueue.length) :
    (RMariaDB.bind r st).toOption.map
        (fun s => (s.rowsAffected_, s.execCount, s.execQueue, s.bound_,
                   rows_affected s)) =
      some (sumAffected (st.execQueue.take r), st.execCount + r,
            st.execQueue.drop r, true,
            toInt32 (sumAffected (st.execQueue.take r))) := by
  unfold has_result at hr
  obtain ⟨st2, hrun, hra, hec, hqq, _⟩ :=
    bindLoop_spec r { st with rowsAffected_ := 0, paramRowsLeft := r }
      hr (Nat.le_refl r) hok hlen
  simp only [hr] at hrun hra hec hqq
  simp only [bind, has_result, hr, Bool.false_eq_true, if_false]
  rw [hrun]
  simp at hra hec hqq
  simp [hra, hec, hqq, rows_affected]
  exact ⟨_, rfl, rfl, rfl, rfl, rfl, rfl⟩

/-- A concrete INSERT-like statement (no result set) with three queued
execution behaviours reporting 4, 5 and 6 affected rows. -/
def exInsert : MariaResultState :=
  { initState with
    execQueue :=
      [{ ok := true, errMsg := "", errCode := 0, affected := 4, resultSet := [] },
       { ok := true, errMsg := "", errCode := 0, affected := 5, resultSet := [] },
       { ok := true, errMsg := "", errCode := 0, affected := 6, resultSet := [] }] }

/-- Claim C5 witness: three parameter rows bound to the concrete INSERT-like
statement yield three executions and 4+5+6 affected rows. -/
theorem bind_no_result_spec_witness :
    (has_result exInsert = false ∧
      (exInsert.execQueue.take 3).all (fun b => b.ok) = true ∧
      3 ≤ exInsert.execQueue.length) ∧
    (RMariaDB.bind 3 exInsert).toOption.map
        (fun s => (s.rowsAffected_, s.execCount, s.execQueue, s.bound_,
                   rows_affected s)) =
      some (sumAffected (exInsert.execQueue.take 3), exInsert.execCount + 3,
            exInsert.execQueue.drop 3, true,
            toInt32 (sumAffected (exInsert.execQueue.take 3))) :=
  ⟨⟨rfl, by decide, by decide⟩,
    bind_no_result_spec exInsert 3 rfl (by decide) (by decide)⟩

/-- Claim C6: preparing a statement with zero parameters executes it exactly
once (one oracle behaviour is consumed) during `send_query`, and the bound
flag is already true when `send_query` returns, so no explicit `bind` call
is needed before fetching. -/
theorem send_query_no_params (q : PrepareSpec) (st : MariaResultState)
    (b : ExecBehavior) (rest : List ExecBehavior)
    (hprep : q.prepOk = true) (hp : q.paramCount = 0)
    (hq : st.execQueue = b :: rest) (hok : b.ok = true) :
    (send_query q st).toOption.map
        (fun s => (s.bound_, s.execCount, s.execQueue)) =
      some (true, st.execCount + 1, rest) := by
  unfold send_query
  cases hm : q.metadata <;>
    simp [hprep, hp, hq, hok, execute, popExec, has_result, cache_metadata_if, hm] <;>
    exact ⟨_, rfl, rfl, rfl, rfl⟩

/-- The prepare answer for a no-parameter SELECT-like query with one integer
column. -/
def exPrepSelect : PrepareSpec :=
  { prepOk := true
    errMsg := ""
    errCode := 0
    paramCount := 0
    metadata := some [("x", MariaFieldType.intT)] }

/-- One successful execution behaviour producing a single one-column row. -/
def exOneRowBeh : ExecBehavior :=
  { ok := true
    errMsg := ""
    errCode := 0
    affected := 0
    resultSet := [FetchOutcome.rowOk [1]] }

/-- A fresh state whose oracle holds one successful execution producing one
row. -/
def exFreshOneRow : MariaResultState :=
  { initState with execQueue := [exOneRowBeh] }

/-- Claim C6 witness: the theorem applied to the concrete no-parameter
prepare on the fresh state. -/
theorem send_query_no_params_witness :
    (exPrepSelect.prepOk = true ∧ exPrepSelect.paramCount = 0 ∧
      exFreshOneRow.execQueue = exOneRowBeh :: [] ∧ exOneRowBeh.ok = true) ∧
    (send_query exPrepSelect exFreshOneRow).toOption.map
        (fun s => (s.bound_, s.execCount, s.execQueue)) =
      some (true, exFreshOneRow.execCount + 1, []) :=
  ⟨⟨rfl, rfl, rfl, rfl⟩,
    send_query_no_params exPrepSelect exFreshOneRow exOneRowBeh [] rfl rfl rfl rfl⟩

/-- Claim C8: `fetch` on a statement that is not yet bound, or on a result
object that is not the connection's current result, fails with the
corresponding precondition error before any fetch work (the error is raised
by the guard clauses ahead of the loop, and no successor state is
produced). -/
theorem fetch_precondition_error (st : MariaResultState) (n_max : Int)
    (h : st.bound_ = false ∨ active st = false) :
    fetch n_max st =
      Except.error (MariaError.preconditionError
        (if st.bound_ = false then "Query needs to be bound before fetching"
         else "Inactive result set")) := by
  unfold fetch
  rcases h with h | h
  · simp [h]
  · cases hb : st.bound_
    · simp
    · simp [hb, h]

/-- Claim C8 witness: fetching from the freshly constructed (never bound)
state fails with the bind-precondition error. -/
theorem fetch_precondition_error_witness :
    (initState.bound_ = false ∨ active initState = false) ∧
      fetch 5 initState =
        Except.error (MariaError.preconditionError
          (if initState.bound_ = false then "Query needs to be bound before fetching"
           else "Inactive result set")) :=
  ⟨Or.inl rfl, fetch_precondition_error initState 5 (Or.inl rfl)⟩

/-- Claim C10: on a bound, active, row-producing statement, `fetch 0`
returns immediately: the result is the zero-row table carrying the cached
column names and types, and the state — in particular the fetched-row
counter, the completion flag and the stored result set — is returned
entirely unchanged (no protocol-level fetch happens). -/
theorem fetch_zero_frame (st : MariaResultState) (hb : st.bound_ = true)
    (ha : active st = true) (hr : has_result st = true) :
    fetch 0 st =
      Except.ok ({ names := st.names_, types := st.types_, rows := [] }, st) := by
  unfold fetch
  simp [hb, ha, hr, df_create]

/-- A bound, active SELECT-like statement holding two unfetched rows. -/
def exBoundSelect : MariaResultState :=
  { initState with
    bound_ := true
    pSpec_ := true
    names_ := ["x"]
    types_ := [MariaFieldType.intT]
    nCols_ := 1
    pending := [FetchOutcome.rowOk [1], FetchOutcome.rowOk [2]] }

/-- Claim C10 witness: `fetch 0` on the concrete bound SELECT with two
pending rows returns the empty typed table and the very same state. -/
theorem fetch_zero_frame_witness :
    (exBoundSelect.bound_ = true ∧ active exBoundSelect = true ∧
      has_result exBoundSelect = true) ∧
    fetch 0 exBoundSelect =
      Except.ok ({ names := exBoundSelect.names_, types := exBoundSelect.types_,
                   rows := [] }, exBoundSelect) :=
  ⟨⟨rfl, rfl, rfl⟩, fetch_zero_frame exBoundSelect rfl rfl rfl⟩

/-! ## The fetch loop (claim C4) -/

/-- Resizing yields exactly the requested number of rows. -/
theorem df_resize_length (df : DataFrame) (m : Nat) :
    (df_resize df m).rows.length = m := by
  unfold df_resize
  by_cases h : m ≤ df.rows.length
  · simp [h]
  · simp [h]
    omega

/-- Writing a row in place preserves the number of rows. -/
theorem writeRow_length (out : DataFrame) (i : Nat) (r : Row) :
    (writeRow out i r).rows.length = out.rows.length := by
  simp [writeRow]

/-- The final trim produces a table of exactly `i` rows whenever `i` is at
most the current capacity. -/
theorem fetchFinalize_length (i n : Nat) (out : DataFrame)
    (hout : out.rows.length = n) (hin : i ≤ n) :
    (fetchFinalize i n out).rows.length = i := by
  unfold fetchFinalize
  by_cases h : i < n
  · simp [h, df_resize_length]
  · simp [h, hout]
    omega

/-- Taking a prefix of the oracle queue cannot increase the row total. -/
theorem listRows_take_le (l : List ExecBehavior) (k : Nat) :
    listRows (l.take k) ≤ listRows l := by
  induction l generalizing k with
  | nil => simp [listRows]
  | cons b rest ih =>
    cases k with
    | zero => simp [listRows]
    | succ k =>
      simp only [List.take_succ_cons, listRows, List.map_cons, List.sum_cons]
      have h := ih k
      simp only [listRows] at h
      exact Nat.add_le_add_left h _

/-- The fuel passed by `fetch` bounds the rows still obtainable. -/
theorem remaining_le_fetchFuel (st : MariaResultState) :
    remaining st ≤ fetchFuel st := by
  unfold remaining fetchFuel
  have h1 : (if st.complete_ then 0 else st.pending.length) ≤ st.pending.length := by
    cases st.complete_ <;> simp
  have h2 := listRows_take_le st.execQueue st.paramRowsLeft
  simp only [listRows] at h2 ⊢
  omega

/-- Rebinding the next parameter row and re-executing, under a clean state:
the oracle's head behaviour is loaded as the new stored result set, the
parameter cursor and the oracle queue advance, and the completion flag is
cleared. -/
theorem rebind_execute_spec (st : MariaResultState) (k : Nat) (b : ExecBehavior)
    (qrest : List ExecBehavior)
    (hspec : st.pSpec_ = true) (hpr : st.paramRowsLeft = k + 1)
    (hq : st.execQueue = b :: qrest) (hok : b.ok = true) :
    execute (bindNext st) = Except.ok
      { st with complete_ := false
                paramRowsLeft := k
                pending := b.resultSet
                execQueue := qrest
                execCount := st.execCount + 1 } := by
  simp [execute, bindNext, popExec, has_result, hq, hok, hspec, hpr]

/-- One `step` under a clean state: when rows remain it succeeds, consuming
exactly one row and preserving cleanliness; when none remain it returns
false, still clean with nothing left. -/
theorem stepLoop_clean : ∀ (fuel : Nat) (st : MariaResultState),
    clean st → st.paramRowsLeft ≤ fuel →
    ∃ st2, clean st2 ∧
      ((0 < remaining st ∧ stepLoop fuel st = Except.ok (true, st2) ∧
          remaining st2 + 1 = remaining st) ∨
       (remaining st = 0 ∧ stepLoop fuel st = Except.ok (false, st2) ∧
          remaining st2 = 0)) := by
  intro fuel
  induction fuel with
  | zero =>
    intro st hclean hfuel
    obtain ⟨hspec, hpend, hall, hlen⟩ := hclean
    have hpr : st.paramRowsLeft = 0 := Nat.le_zero.mp hfuel
    cases hcomp : st.complete_ with
    | true =>
      have hrem : remaining st = 0 := by simp [remaining, hcomp, hpr, listRows]
      exact ⟨st, ⟨hspec, hpend, hall, hlen⟩,
        Or.inr ⟨hrem, by simp [stepLoop, fetch_row, hcomp], hrem⟩⟩
    | false =>
      cases hp : st.pending with
      | nil =>
        have hrem : remaining st = 0 := by
          simp [remaining, hcomp, hp, hpr, listRows]
        refine ⟨{ st with complete_ := true }, ?_, Or.inr ⟨hrem, ?_, ?_⟩⟩
        · exact ⟨hspec, by simp, by simpa using hall, by simpa using hlen⟩
        · simp [stepLoop, fetch_row, hcomp, hp]
        · simp [remaining, hpr, listRows]
      | cons o rest =>
        have hro : rowsOnly (o :: rest) = true := hp ▸ hpend hcomp
        cases o with
        | fetchFail m c => simp [rowsOnly] at hro
        | rowOk r =>
          have hrest : rowsOnly rest = true := by
            simp [rowsOnly] at hro ⊢
            exact hro
          refine ⟨{ st with pending := rest, buffer := r,
                            rowsFetched_ := st.rowsFetched_ + 1 }, ?_,
            Or.inl ⟨?_, ?_, ?_⟩⟩
          · exact ⟨hspec, by simpa using fun _ => hrest, by simpa using hall,
              by simpa using hlen⟩
          · simp [remaining, hcomp, hp]
          · simp [stepLoop, fetch_row, hcomp, hp]
          · simp [remaining, hcomp, hp]
            omega
        | rowTruncated r =>
          have hrest : rowsOnly rest = true := by
            simp [rowsOnly] at hro ⊢
            exact hro
          refine ⟨{ st with pending := rest, buffer := r,
                            rowsFetched_ := st.rowsFetched_ + 1 }, ?_,
            Or.inl ⟨?_, ?_, ?_⟩⟩
          · exact ⟨hspec, by simpa using fun _ => hrest, by simpa using hall,
              by simpa using hlen⟩
          · simp [remaining, hcomp, hp]
          · simp [stepLoop, fetch_row, hcomp, hp]
          · simp [remaining, hcomp, hp]
            omega
  | succ fuel ih =>
    intro st hclean hfuel
    obtain ⟨hspec, hpend, hall, hlen⟩ := hclean
    cases hcomp : st.complete_ with
    | true =>
      cases hpr : st.paramRowsLeft with
      | zero =>
        have hrem : remaining st = 0 := by simp [remaining, hcomp, hpr, listRows]
        exact ⟨st, ⟨hspec, hpend, hall, hlen⟩,
          Or.inr ⟨hrem, by simp [stepLoop, fetch_row, hcomp, hpr], hrem⟩⟩
      | succ k =>
        cases hq : st.execQueue with
        | nil =>
          rw [hq] at hlen
          simp [hpr] at hlen
        | cons b qrest =>
          have hball : b.ok = true ∧ rowsOnly b.resultSet = true ∧
              allClean (qrest.take k) = true := by
            rw [hq, hpr] at hall
            rw [List.take_succ_cons] at hall
            simp only [allClean, List.all_cons, Bool.and_eq_true,
              behaviorClean] at hall
            exact ⟨hall.1.1, hall.1.2, hall.2⟩
          have hexec := rebind_execute_spec st k b qrest hspec hpr hq hball.1
          set st2 : MariaResultState :=
            { st with complete_ := false
                      paramRowsLeft := k
                      pending := b.resultSet
                      execQueue := qrest
                      execCount := st.execCount + 1 } with hst2
          have hclean2 : clean st2 := by
            refine ⟨by simp [hst2, hspec], ?_, ?_, ?_⟩
            · intro _
              simpa [hst2] using hball.2.1
            · simpa [hst2] using hball.2.2
            · rw [hq] at hlen
              simp only [List.length_cons] at hlen
              simp [hst2]
              omega
          have hremeq : remaining st2 = remaining st := by
            simp [remaining, hst2, hcomp, hq, hpr, listRows, List.take_succ_cons]
          have hk : st2.paramRowsLeft ≤ fuel := by
            have hpk : st2.paramRowsLeft = k := by rw [hst2]
            omega
          obtain ⟨stf, hcf, hd⟩ := ih st2 hclean2 hk
          have hrun : stepLoop (fuel + 1) st = stepLoop fuel st2 := by
            simp [stepLoop, fetch_row, hcomp, hpr, hexec]
          rw [hremeq] at hd
          rw [← hrun] at hd
          exact ⟨stf, hcf, hd⟩
    | false =>
      cases hp : st.pending with
      | cons o rest =>
        have hro : rowsOnly (o :: rest) = true := hp ▸ hpend hcomp
        cases o with
        | fetchFail m c => simp [rowsOnly] at hro
        | rowOk r =>
          have hrest : rowsOnly rest = true := by
            simp [rowsOnly] at hro ⊢
            exact hro
          refine ⟨{ st with pending := rest, buffer := r,
                            rowsFetched_ := st.rowsFetched_ + 1 }, ?_,
            Or.inl ⟨?_, ?_, ?_⟩⟩
          · exact ⟨hspec, by simpa using fun _ => hrest, by simpa using hall,
              by simpa using hlen⟩
          · simp [remaining, hcomp, hp]
          · simp [stepLoop, fetch_row, hcomp, hp]
          · simp [remaining, hcomp, hp]
            omega
        | rowTruncated r =>
          have hrest : rowsOnly rest = true := by
            simp [rowsOnly] at hro ⊢
            exact hro
          refine ⟨{ st with pending := rest, buffer := r,
                            rowsFetched_ := st.rowsFetched_ + 1 }, ?_,
            Or.inl ⟨?_, ?_, ?_⟩⟩
          · exact ⟨hspec, by simpa using fun _ => hrest, by simpa using hall,
              by simpa using hlen⟩
          · simp [remaining, hcomp, hp]
          · simp [stepLoop, fetch_row, hcomp, hp]
          · simp [remaining, hcomp, hp]
            omega
      | nil =>
        cases hpr : st.paramRowsLeft with
        | zero =>
          have hrem : remaining st = 0 := by
            simp [remaining, hcomp, hp, hpr, listRows]
          refine ⟨{ st with complete_ := true }, ?_, Or.inr ⟨hrem, ?_, ?_⟩⟩
          · exact ⟨hspec, by simp, by simpa using hall, by simpa using hlen⟩
          · simp [stepLoop, fetch_row, hcomp, hp, hpr]
          · simp [remaining, hpr, listRows]
        | succ k =>
          cases hq : st.execQueue with
          | nil =>
            rw [hq] at hlen
            simp [hpr] at hlen
          | cons b qrest =>
            have hball : b.ok = true ∧ rowsOnly b.resultSet = true ∧
                allClean (qrest.take k) = true := by
              rw [hq, hpr] at hall
              rw [List.take_succ_cons] at hall
              simp only [allClean, List.all_cons, Bool.and_eq_true,
                behaviorClean] at hall
              exact ⟨hall.1.1, hall.1.2, hall.2⟩
            have hexec := rebind_execute_spec { st with complete_ := true } k b
              qrest hspec (by simpa using hpr) (by simpa using hq) hball.1
            set st2 : MariaResultState :=
              { st with complete_ := false
                        paramRowsLeft := k
                        pending := b.resultSet
                        execQueue := qrest
                        execCount := st.execCount + 1 } with hst2
            have hexec2 : execute (bindNext { st with complete_ := true }) =
                Except.ok st2 := by
              rw [hst2, hexec]
            have hclean2 : clean st2 := by
              refine ⟨by simp [hst2, hspec], ?_, ?_, ?_⟩
              · intro _
                simpa [hst2] using hball.2.1
              · simpa [hst2] using hball.2.2
              · rw [hq] at hlen
                simp only [List.length_cons] at hlen
                simp [hst2]
                omega
            have hremeq : remaining st2 = remaining st := by
              simp [remaining, hst2, hcomp, hp, hq, hpr, listRows,
                List.take_succ_cons]
            have hk : st2.paramRowsLeft ≤ fuel := by
              have hpk : st2.paramRowsLeft = k := by rw [hst2]
              omega
            obtain ⟨stf, hcf, hd⟩ := ih st2 hclean2 hk
            have hrun : stepLoop (fuel + 1) st = stepLoop fuel st2 := by
              simp only [hpr, hp] at hexec2
              simp [stepLoop, fetch_row, hcomp, hp, hpr, hexec2]
            rw [hremeq] at hd
            rw [← hrun] at hd
            exact ⟨stf, hcf, hd⟩

/-- `step` under a clean state (the fuel of `stepLoop` instantiated with the
parameter cursor, as `step` does). -/
theorem step_clean (st : MariaResultState) (hclean : clean st) :
    ∃ st2, clean st2 ∧
      ((0 < remaining st ∧ step st = Except.ok (true, st2) ∧
          remaining st2 + 1 = remaining st) ∨
       (remaining st = 0 ∧ step st = Except.ok (false, st2) ∧
          remaining st2 = 0)) :=
  stepLoop_clean st.paramRowsLeft st hclean (Nat.le_refl _)

/-- The loop breaks immediately once the write index reaches the requested
row count (positive `n_max`). -/
theorem fetchLoop_break (fuel i n : Nat) (n_max : Int) (out : DataFrame)
    (st : MariaResultState) (hbr : n ≤ i ∧ 0 < n_max) :
    fetchLoop fuel i n n_max out st = Except.ok (fetchFinalize i n out, st) := by
  cases fuel <;> simp [fetchLoop, hbr]

/-- A failed step ends the loop with the trimmed table. -/
theorem fetchLoop_step_false (fuel i n : Nat) (n_max : Int) (out : DataFrame)
    (st st2 : MariaResultState) (hbr : ¬(n ≤ i ∧ 0 < n_max))
    (h : step st = Except.ok (false, st2)) :
    fetchLoop fuel i n n_max out st = Except.ok (fetchFinalize i n out, st2) := by
  cases fuel <;> simp [fetchLoop, hbr, h]

/-- A successful step writes the buffered row (doubling the capacity first
if the write index has reached it) and continues. -/
theorem fetchLoop_step_true (fuel i n : Nat) (n_max : Int) (out : DataFrame)
    (st st2 : MariaResultState) (hbr : ¬(n ≤ i ∧ 0 < n_max))
    (h : step st = Except.ok (true, st2)) :
    fetchLoop (fuel + 1) i n n_max out st =
      fetchLoop fuel (i + 1) (if n ≤ i then 2 * n else n) n_max
        (writeRow (if n ≤ i then df_resize out (2 * n) else out) i st2.buffer)
        st2 := by
  simp [fetchLoop, hbr, h]

/-- The fetch loop under a clean state: it terminates successfully and the
returned table holds `min n_max (rows already written + rows remaining)`
rows when `n_max` is positive, and everything when `n_max` is negative. -/
theorem fetchLoop_clean : ∀ (fuel : Nat) (st : MariaResultState) (i n : Nat)
    (n_max : Int) (out : DataFrame),
    clean st → remaining st ≤ fuel → out.rows.length = n → i ≤ n → 0 < n →
    (0 < n_max → (i ≤ n_max.toNat ∧ n = n_max.toNat)) → n_max ≠ 0 →
    ∃ df st2, fetchLoop fuel i n n_max out st = Except.ok (df, st2) ∧
      df.rows.length =
        (if 0 < n_max then min n_max.toNat (i + remaining st)
         else i + remaining st) := by
  intro fuel
  induction fuel with
  | zero =>
    intro st i n n_max out hclean hfuel hout hin hn hpos hnz
    have hrem : remaining st = 0 := Nat.le_zero.mp hfuel
    by_cases hbr : (n ≤ i ∧ 0 < n_max)
    · refine ⟨fetchFinalize i n out, st,
        fetchLoop_break 0 i n n_max out st hbr, ?_⟩
      have hieq : i = n := Nat.le_antisymm hin hbr.1
      obtain ⟨hi2, hn2⟩ := hpos hbr.2
      rw [fetchFinalize_length i n out hout hin, hrem]
      simp [hbr.2]
      omega
    · obtain ⟨st2, hc2, hd⟩ := step_clean st hclean
      rcases hd with ⟨hpos0, _, _⟩ | ⟨_, hrun, _⟩
      · omega
      · refine ⟨fetchFinalize i n out, st2,
          fetchLoop_step_false 0 i n n_max out st st2 hbr hrun, ?_⟩
        rw [fetchFinalize_length i n out hout hin, hrem]
        by_cases hm : 0 < n_max
        · obtain ⟨hi2, _⟩ := hpos hm
          simp [hm]
          omega
        · simp [hm]
  | succ fuel ih =>
    intro st i n n_max out hclean hfuel hout hin hn hpos hnz
    by_cases hbr : (n ≤ i ∧ 0 < n_max)
    · refine ⟨fetchFinalize i n out, st,
        fetchLoop_break (fuel + 1) i n n_max out st hbr, ?_⟩
      have hieq : i = n := Nat.le_antisymm hin hbr.1
      obtain ⟨hi2, hn2⟩ := hpos hbr.2
      rw [fetchFinalize_length i n out hout hin]
      simp [hbr.2]
      omega
    · obtain ⟨st2, hc2, hd⟩ := step_clean st hclean
      rcases hd with ⟨hpos1, hrun, hremeq⟩ | ⟨hrem0, hrun, _⟩
      · have hloop := fetchLoop_step_true fuel i n n_max out st st2 hbr hrun
        by_cases hni : n ≤ i
        · have hmax : ¬ 0 < n_max := fun hc => hbr ⟨hni, hc⟩
          have hieq : i = n := Nat.le_antisymm hin hni
          have hout2 :
              (writeRow (df_resize out (2 * n)) i st2.buffer).rows.length =
                2 * n := by
            rw [writeRow_length, df_resize_length]
          obtain ⟨df, stf, hfin, hlenf⟩ := ih st2 (i + 1) (2 * n) n_max
            (writeRow (df_resize out (2 * n)) i st2.buffer) hc2 (by omega)
            hout2 (by omega) (by omega) (fun hc => absurd hc hmax) hnz
          refine ⟨df, stf, ?_, ?_⟩
          · rw [hloop]
            simpa [hni] using hfin
          · rw [hlenf]
            simp [hmax]
            omega
        · have hout2 : (writeRow out i st2.buffer).rows.length = n := by
            rw [writeRow_length, hout]
          have hpos2 : 0 < n_max → ((i + 1) ≤ n_max.toNat ∧ n = n_max.toNat) := by
            intro hm
            obtain ⟨_, hn2⟩ := hpos hm
            refine ⟨?_, hn2⟩
            omega
          obtain ⟨df, stf, hfin, hlenf⟩ := ih st2 (i + 1) n n_max
            (writeRow out i st2.buffer) hc2 (by omega) hout2 (by omega) hn
            hpos2 hnz
          refine ⟨df, stf, ?_, ?_⟩
          · rw [hloop]
            simpa [hni] using hfin
          · rw [hlenf]
            by_cases hm : 0 < n_max
            · simp [hm]
              omega
            · simp [hm]
              omega
      · refine ⟨fetchFinalize i n out, st2,
          fetchLoop_step_false (fuel + 1) i n n_max out st st2 hbr hrun, ?_⟩
        rw [fetchFinalize_length i n out hout hin, hrem0]
        by_cases hm : 0 < n_max
        · obtain ⟨hi2, _⟩ := hpos hm
          simp [hm]
          omega
        · simp [hm]

/-- Claim C4: on a bound, active, row-producing statement whose outstanding
protocol interactions succeed, `fetch n_max` with `n_max ≥ 0` returns a
table of exactly `min n_max (rows remaining)` rows — at most `n_max` even if
more are available, and fewer only when the result is exhausted — while any
negative `n_max` returns all remaining rows, the table being trimmed to
exactly the number of rows actually produced. -/
theorem fetch_row_count (st : MariaResultState) (n_max : Int)
    (hb : st.bound_ = true) (ha : active st = true) (hcl : clean st) :
    (fetch n_max st).toOption.map (fun p => p.1.rows.length) =
      some (if n_max < 0 then remaining st
            else min n_max.toNat (remaining st)) := by
  have hr : has_result st = true := hcl.1
  rcases lt_trichotomy n_max 0 with hneg | hzero | hposm
  · obtain ⟨df, st2, hrun, hlen⟩ := fetchLoop_clean (fetchFuel st) st 0 100
      n_max (df_create st.types_ st.names_ 100) hcl
      (remaining_le_fetchFuel st) (by simp [df_create]) (by omega) (by omega)
      (fun hc => absurd hc (by omega)) (by omega)
    simp only [if_neg (by omega : ¬ 0 < n_max), Nat.zero_add] at hlen
    simp [fetch, hb, ha, hr, hneg, hrun, hlen]
    exact ⟨df, ⟨st2, rfl⟩, hlen⟩
  · subst hzero
    simp [fetch, hb, ha, hr, df_create]
    exact ⟨{ names := st.names_, types := st.types_, rows := [] }, ⟨st, rfl⟩, rfl⟩
  · have htn : n_max.toNat ≠ 0 := by omega
    obtain ⟨df, st2, hrun, hlen⟩ := fetchLoop_clean (fetchFuel st) st 0
      n_max.toNat n_max (df_create st.types_ st.names_ n_max.toNat) hcl
      (remaining_le_fetchFuel st) (by simp [df_create]) (by omega) (by omega)
      (fun _ => ⟨by omega, rfl⟩) (by omega)
    simp only [if_pos hposm, Nat.zero_add] at hlen
    simp [fetch, hb, ha, hr, hrun, hlen, htn, if_neg (by omega : ¬ n_max < 0)]
    exact ⟨df, ⟨st2, rfl⟩, hlen⟩

/-- The spec's concrete scenario C: a bound, active SELECT-like statement
holding a 250-row stored result (well past the default batch size of
100). -/
def exBig : MariaResultState :=
  { initState with
    bound_ := true
    pSpec_ := true
    names_ := ["x"]
    types_ := [MariaFieldType.intT]
    nCols_ := 1
    pending := List.replicate 250 (FetchOutcome.rowOk [1]) }

set_option maxRecDepth 4096 in
/-- The concrete scenario state is clean, with 250 rows remaining. -/
theorem exBig_clean : clean exBig ∧ remaining exBig = 250 :=
  ⟨⟨rfl, fun _ => by decide, by decide, by decide⟩, by decide⟩

/-- Claim C4 witness: `fetch (-1)` over the concrete 250-row result returns
exactly 250 rows. -/
theorem fetch_row_count_witness :
    (exBig.bound_ = true ∧ active exBig = true ∧ clean exBig ∧
      remaining exBig = 250) ∧
    (fetch (-1) exBig).toOption.map (fun p => p.1.rows.length) =
      some (if (-1 : Int) < 0 then remaining exBig
            else min (Int.toNat (-1)) (remaining exBig)) :=
  ⟨⟨rfl, rfl, exBig_clean.1, exBig_clean.2⟩,
    fetch_row_count exBig (-1) rfl rfl exBig_clean.1⟩

end RMariaDB
